import Mathlib

/-!
# ImageMorph: video metadata acquisition and caching

A shallow embedding of `backend/downloader.go` (`fetchVideoData`, `downloadHandler`)
and theorems about it.

Modelling conventions.

* The value `json.Unmarshal` stores in an `interface{}` is a tree `JValue`
  (nil, bool, float64, string, `[]interface{}`, `map[string]interface{}`).
* A Go map is an association list read by first match; the nil map and the empty
  map read alike and are both the empty list.
* A float64 held by a decoded document is finite, so it is an integer mantissa
  times a power of two: the decoder rounds each number literal to the nearest
  float64 and reports an error for a literal whose nearest float64 is infinite.
* A Go slice is `Slice`: the nil slice, or a non-nil slice with its elements.
* The external resolver process is an input: a function from the URL to what
  `cmd.Output()` gives back. The bytes of its standard output are either not a
  JSON text, or a JSON text given as its tree `JDoc`, with the number literals as
  written; `unmarshal` is the decoding of that tree by `encoding/json`.
* Requests are processed one after the other; the two mutex operations are
  therefore the identity and are not represented.
* Response headers are not represented; a response is its status and body.
-/

set_option autoImplicit false
set_option maxRecDepth 100000
set_option exponentiation.threshold 4096

namespace ImageMorph

/-! ## Data model -/

/-- A finite float64 value, `mant * 2 ^ exp`. -/
structure Float64 where
  mant : Int
  exp : Int
  deriving DecidableEq, Repr

/-- Every IEEE-754 binary64 finite value has a mantissa below `2 ^ 53` in absolute
value and an exponent between `-1074` and `971`. -/
def Float64.representable (f : Float64) : Prop :=
  -(2 : Int) ^ 53 < f.mant ∧ f.mant < (2 : Int) ^ 53 ∧ -1074 ≤ f.exp ∧ f.exp ≤ 971

instance (f : Float64) : Decidable f.representable := by
  unfold Float64.representable
  exact inferInstance

/-- The value Go stores in an `interface{}` when decoding JSON. -/
inductive JValue where
  | null : JValue
  | bool (b : Bool) : JValue
  | num (f : Float64) : JValue
  | str (s : String) : JValue
  | arr (elems : List JValue) : JValue
  | obj (fields : List (String × JValue)) : JValue

/-- Go type `map[string]interface{}`. -/
abbrev GoMap := List (String × JValue)

/-- Map read `m[key]`: the first binding of `key`, the nil interface when absent. -/
def mapIndex : GoMap → String → JValue
  | [], _ => JValue.null
  | (k, v) :: rest, key => if k = key then v else mapIndex rest key

/-- Map assignment `m[key] = value`: the binding of `key` is replaced, or added. -/
def mapStore : GoMap → String → JValue → GoMap
  | [], key, value => [(key, value)]
  | (k, v) :: rest, key, value =>
    if k = key then (key, value) :: rest else (k, v) :: mapStore rest key value

/-- Type assertion `v.(string)` in its comma-ok form. -/
def asString : JValue → Option String
  | JValue.str s => some s
  | _ => none

/-- Type assertion `v.(float64)` in its comma-ok form. -/
def asFloat64 : JValue → Option Float64
  | JValue.num f => some f
  | _ => none

/-- Type assertion `v.([]interface{})` in its comma-ok form. -/
def asSlice : JValue → Option (List JValue)
  | JValue.arr xs => some xs
  | _ => none

/-- Type assertion `v.(map[string]interface{})` in its comma-ok form. -/
def asMap : JValue → Option GoMap
  | JValue.obj m => some m
  | _ => none

/-- A Go slice value: the nil slice, or a non-nil slice holding `xs`. -/
inductive Slice (α : Type) where
  | nil : Slice α
  | elems (xs : List α) : Slice α
  deriving DecidableEq, Repr

/-- The elements of a slice, in order; the nil slice has none. -/
def Slice.toList {α : Type} : Slice α → List α
  | Slice.nil => []
  | Slice.elems xs => xs

/-- Go builtin `append(s, x)`: the result is never nil. -/
def Slice.append {α : Type} (s : Slice α) (x : α) : Slice α :=
  Slice.elems (s.toList ++ [x])

/-- Whether the slice is the nil slice (encoded as JSON `null`). -/
def Slice.isNil {α : Type} : Slice α → Bool
  | Slice.nil => true
  | Slice.elems _ => false

/-- Go struct `VideoLink`. -/
structure VideoLink where
  Link : String
  Quality : String
  deriving DecidableEq, Repr

/-- Go struct `VideoMetadata`. -/
structure VideoMetadata where
  Title : String
  Thumbnail : String
  Duration : Int
  Category : String
  Links : Slice VideoLink
  deriving DecidableEq, Repr

/-! ## Conversion of a float64 to `int` -/

/-- Smallest value of Go `int` on a 64-bit platform. -/
def minInt : Int := -(2 : Int) ^ 63

/-- Largest value of Go `int` on a 64-bit platform. -/
def maxInt : Int := (2 : Int) ^ 63 - 1

/-- The float64 with its fraction discarded (rounded toward zero). -/
def Float64.trunc (f : Float64) : Int :=
  if 0 ≤ f.exp then f.mant * (2 : Int) ^ f.exp.toNat
  else Int.tdiv f.mant ((2 : Int) ^ (-f.exp).toNat)

/-- Go conversion `int(f)`: the fraction is discarded; when the result does not
fit in `int` the language leaves the value to the implementation, and the value
given here is the one of amd64 (the smallest `int`). -/
def Float64.toInt (f : Float64) : Int :=
  if minInt ≤ f.trunc ∧ f.trunc ≤ maxInt then f.trunc else minInt

/-- The exact rational value of a float64. -/
def Float64.toRat (f : Float64) : ℚ := (f.mant : ℚ) * (2 : ℚ) ^ f.exp

/-- A rational truncated to an integer: the fractional part is discarded. -/
def truncateRat (q : ℚ) : Int := if 0 ≤ q then ⌊q⌋ else ⌈q⌉

/-! ## `fetchVideoData` -/

deriving instance DecidableEq for Except

/-- What a Go call can end in besides a value: a returned `error`, or a run-time panic. -/
inductive Failure where
  | error (msg : String) : Failure
  | panic (msg : String) : Failure
  deriving DecidableEq, Repr

/-- Lines 79-83: the `title` field. -/
def fetchVideoData.title (metadata : GoMap) : String :=
  match asString (mapIndex metadata "title") with
  | some title => title
  | none => "Unknown Title"

/-- Lines 85-89: the `thumbnail` field. -/
def fetchVideoData.thumbnail (metadata : GoMap) : String :=
  match asString (mapIndex metadata "thumbnail") with
  | some thumbnail => thumbnail
  | none => "No Thumbnail"

/-- Lines 91-95: the `duration` field. -/
def fetchVideoData.duration (metadata : GoMap) : Int :=
  match asFloat64 (mapIndex metadata "duration") with
  | some duration => duration.toInt
  | none => 0

/-- Lines 97-105: the `categories` field. The index expression `categories[0]`
panics when the slice has no element at index 0. -/
def fetchVideoData.category (metadata : GoMap) : Except Failure String :=
  match asSlice (mapIndex metadata "categories") with
  | some categories =>
    if categories.length > 0 then
      match categories[0]? with
      | none => Except.error (Failure.panic "runtime error: index out of range [0] with length 0")
      | some first =>
        match asString first with
        | some category => Except.ok category
        | none => Except.ok "Uncategorized"
    else Except.ok "Uncategorized"
  | none => Except.ok "Uncategorized"

/-- Lines 110-119: the body of the loop over `formats`. -/
def fetchVideoData.linkStep (links : Slice VideoLink) (format : JValue) : Slice VideoLink :=
  match asMap format with
  | some formatMap =>
    match asString (mapIndex formatMap "url") with
    | some url =>
      match asString (mapIndex formatMap "format") with
      | some quality => links.append { Link := url, Quality := quality }
      | none => links
    | none => links
  | none => links

/-- Lines 107-121: `links` starts as the nil slice and is appended to in a loop. -/
def fetchVideoData.links (metadata : GoMap) : Slice VideoLink :=
  match asSlice (mapIndex metadata "formats") with
  | some formats => formats.foldl fetchVideoData.linkStep Slice.nil
  | none => Slice.nil

/-- Lines 78-124: the typed record built from the decoded map. -/
def fetchVideoData.build (metadata : GoMap) : Except Failure VideoMetadata :=
  match fetchVideoData.category metadata with
  | Except.error e => Except.error e
  | Except.ok category =>
    Except.ok
      { Title := fetchVideoData.title metadata
        Thumbnail := fetchVideoData.thumbnail metadata
        Duration := fetchVideoData.duration metadata
        Category := category
        Links := fetchVideoData.links metadata }

/-! ## JSON text and its decoding by `encoding/json` -/

/-- A JSON number literal: its text, and the value `mant * 10 ^ exp10` that the
text denotes (a sign, digits, a fraction and an exponent always denote such a value). -/
structure NumLit where
  text : String
  mant : Int
  exp10 : Int
  deriving DecidableEq, Repr

/-- Number of binary digits of `n`, found by halving at most `fuel` times. -/
def bitLength : Nat → Nat → Nat
  | 0, _ => 0
  | fuel + 1, n => if n = 0 then 0 else bitLength fuel (n / 2) + 1

/-- For positive `n` and `d`, the integer `e` with `2 ^ e ≤ n / d < 2 ^ (e + 1)`. -/
def binaryExponent (n d : Nat) : Int :=
  if d * 2 ^ ((bitLength n n : Int) - (bitLength d d : Int)).toNat ≤
      n * 2 ^ (-((bitLength n n : Int) - (bitLength d d : Int))).toNat
  then (bitLength n n : Int) - (bitLength d d : Int)
  else (bitLength n n : Int) - (bitLength d d : Int) - 1

/-- The integer nearest to `n / d`, a tie going to the even one. -/
def roundHalfEven (n d : Nat) : Nat :=
  if 2 * (n % d) < d then n / d
  else if d < 2 * (n % d) then n / d + 1
  else n / d + (n / d) % 2

/-- The exponent of the float64 nearest to `n / d`: 53 significant bits, and never
below the exponent of the subnormal numbers. -/
def float64Exponent (n d : Nat) : Int := max (binaryExponent n d - 52) (-1074)

/-- The mantissa of the float64 nearest to `n / d`, before normalisation. -/
def float64Mantissa (n d : Nat) : Nat :=
  roundHalfEven (n * 2 ^ (-(float64Exponent n d)).toNat) (d * 2 ^ (float64Exponent n d).toNat)

/-- The float64 nearest to `sign * n / d` (IEEE 754 round to nearest, ties to
even), or `none` when rounding carries it beyond the largest float64. -/
def nearestFloat64 (sign : Int) (n d : Nat) : Option Float64 :=
  if float64Mantissa n d = 2 ^ 53 then
    if 971 < float64Exponent n d + 1 then none
    else some { mant := sign * 2 ^ 52, exp := float64Exponent n d + 1 }
  else
    if 971 < float64Exponent n d then none
    else some { mant := sign * float64Mantissa n d, exp := float64Exponent n d }

/-- Library call `strconv.ParseFloat(s, 64)` on a JSON number literal: the nearest
float64, or `none` for the range error of a literal that rounds to infinity. A
literal too small for float64 gives zero and no error. -/
def NumLit.toFloat64 (lit : NumLit) : Option Float64 :=
  if lit.mant = 0 then some { mant := 0, exp := 0 }
  else nearestFloat64 lit.mant.sign (lit.mant.natAbs * 10 ^ lit.exp10.toNat)
    (10 ^ (-lit.exp10).toNat)

/-- The decoder's `convertNumber`: the float64 of a literal, or a type error. -/
def convertNumber (lit : NumLit) : Except String Float64 :=
  match lit.toFloat64 with
  | some f => Except.ok f
  | none => Except.error ("json: cannot unmarshal number " ++ lit.text ++
      " into Go value of type float64")

/-- A JSON text as a tree (RFC 8259): the three literal names, a number as written,
a string, an array, or an object with its members in the order written (a name
may occur more than once). -/
inductive JDoc where
  | null : JDoc
  | bool (b : Bool) : JDoc
  | num (lit : NumLit) : JDoc
  | str (s : String) : JDoc
  | arr (elems : List JDoc) : JDoc
  | obj (members : List (String × JDoc)) : JDoc

mutual
/-- The decoder's `valueInterface`: the Go value of a JSON value. The first number
literal that is out of range makes the whole decoding an error. -/
def decodeValue : JDoc → Except String JValue
  | JDoc.null => Except.ok JValue.null
  | JDoc.bool b => Except.ok (JValue.bool b)
  | JDoc.num lit =>
    match convertNumber lit with
    | Except.ok f => Except.ok (JValue.num f)
    | Except.error e => Except.error e
  | JDoc.str s => Except.ok (JValue.str s)
  | JDoc.arr elems =>
    match decodeArray elems with
    | Except.ok xs => Except.ok (JValue.arr xs)
    | Except.error e => Except.error e
  | JDoc.obj members =>
    match decodeObject members [] with
    | Except.ok m => Except.ok (JValue.obj m)
    | Except.error e => Except.error e
/-- The decoder's `arrayInterface`: the elements in order. -/
def decodeArray : List JDoc → Except String (List JValue)
  | [] => Except.ok []
  | d :: rest =>
    match decodeValue d with
    | Except.error e => Except.error e
    | Except.ok v =>
      match decodeArray rest with
      | Except.error e => Except.error e
      | Except.ok vs => Except.ok (v :: vs)
/-- The decoder's `objectInterface`: each member is stored in the map in the order
written, so a later member replaces an earlier one of the same name. -/
def decodeObject : List (String × JDoc) → GoMap → Except String GoMap
  | [], m => Except.ok m
  | (k, d) :: rest, m =>
    match decodeValue d with
    | Except.error e => Except.error e
    | Except.ok v => decodeObject rest (mapStore m k v)
end

mutual
/-- The nesting depth of a JSON text: how many arrays and objects are open at its
deepest point. -/
def JDoc.depth : JDoc → Nat
  | JDoc.arr elems => depthOfElems elems + 1
  | JDoc.obj members => depthOfMembers members + 1
  | _ => 0
/-- The largest depth among the elements of an array. -/
def depthOfElems : List JDoc → Nat
  | [] => 0
  | d :: rest => max d.depth (depthOfElems rest)
/-- The largest depth among the members of an object. -/
def depthOfMembers : List (String × JDoc) → Nat
  | [] => 0
  | (_, d) :: rest => max d.depth (depthOfMembers rest)
end

/-- The decoder's `maxNestingDepth`: its scanner gives up on a deeper text. -/
def maxNestingDepth : Nat := 10000

/-- The standard output of the resolver: bytes that are not a JSON text (with the
scanner's message), or a JSON text as its tree. A JSON text is what the grammar of
RFC 8259 derives; the decoder's scanner follows that grammar and does not check the
UTF-8 encoding inside strings, where the decoder substitutes U+FFFD. -/
inductive Stdout where
  | invalid (syntaxError : String) : Stdout
  | document (d : JDoc) : Stdout

/-- The name the decoder gives a JSON value in a type-mismatch error. -/
def jsonKind : JDoc → String
  | JDoc.null => "null"
  | JDoc.bool _ => "bool"
  | JDoc.num _ => "number"
  | JDoc.str _ => "string"
  | JDoc.arr _ => "array"
  | JDoc.obj _ => "object"

/-- Lines 73-74, `json.Unmarshal(output, &metadata)` with `metadata` a nil
`map[string]interface{}`. The scanner first checks the whole text: a syntax error,
or a text nested deeper than `maxNestingDepth`, is an error. Then a JSON object
fills a new map, JSON `null` leaves the map nil, and any other value is a
type-mismatch error; a number literal out of the float64 range anywhere in the
object is an error as well. -/
def unmarshal : Stdout → Except String GoMap
  | Stdout.invalid e => Except.error e
  | Stdout.document d =>
    if maxNestingDepth < d.depth then Except.error "exceeded max depth"
    else
      match d with
      | JDoc.obj members => decodeObject members []
      | JDoc.null => Except.ok []
      | other =>
        Except.error ("json: cannot unmarshal " ++ jsonKind other ++
          " into Go value of type map[string]interface \x7b\x7d")

/-- Lines 73-124: the stage of `fetchVideoData` after the process has returned. -/
def fetchVideoData.normalise (output : Stdout) : Except Failure VideoMetadata :=
  match unmarshal output with
  | Except.error err => Except.error (Failure.error ("failed to parse metadata: " ++ err))
  | Except.ok metadata => fetchVideoData.build metadata

/-- What `cmd.Output()` returns: an error (the process could not be started or
exited with a failure), or the bytes of its standard output. -/
inductive CmdResult where
  | failed (err : String) : CmdResult
  | output (out : Stdout) : CmdResult

/-- Go function `fetchVideoData`. `run` is the external resolver; `invocations`
is the record of the URLs the resolver has been started for. -/
def fetchVideoData (run : String → CmdResult) (videoURL : String)
    (invocations : List String) : Except Failure VideoMetadata × List String :=
  match run videoURL with
  | CmdResult.failed err =>
    (Except.error (Failure.error ("failed to fetch metadata: " ++ err)), invocations ++ [videoURL])
  | CmdResult.output out => (fetchVideoData.normalise out, invocations ++ [videoURL])

/-! ## `downloadHandler` -/

/-- The parts of a request the handler reads: the method and the value of the
`url` query parameter (the empty string when the parameter is absent). -/
structure Request where
  method : String
  url : String
  deriving DecidableEq, Repr

/-- What the handler answers: an error written by `http.Error`, the JSON
encoding of a record (status 200), or nothing because the handler panicked. -/
inductive Response where
  | error (status : Nat) (body : String) : Response
  | json (data : VideoMetadata) : Response
  | aborted (reason : String) : Response
  deriving DecidableEq, Repr

/-- The status code of a response, when one was written. -/
def Response.status : Response → Option Nat
  | Response.error status _ => some status
  | Response.json _ => some 200
  | Response.aborted _ => none

/-- Package variable `cache`, of type `map[string]VideoMetadata`. -/
abbrev Cache := List (String × VideoMetadata)

/-- Map read `cache[key]` in its comma-ok form. -/
def cacheLookup : Cache → String → Option VideoMetadata
  | [], _ => none
  | (k, v) :: rest, key => if k = key then some v else cacheLookup rest key

/-- Map assignment `cache[key] = value`: the binding of `key` is replaced, or added. -/
def cacheStore : Cache → String → VideoMetadata → Cache
  | [], key, value => [(key, value)]
  | (k, v) :: rest, key, value =>
    if k = key then (key, value) :: rest else (k, v) :: cacheStore rest key value

/-- The state of the process: the cache, and the record of resolver invocations. -/
structure Server where
  cache : Cache
  invocations : List String
  deriving DecidableEq, Repr

/-- The state at start-up: `cache = make(map[string]VideoMetadata)`. -/
def Server.init : Server := { cache := [], invocations := [] }

/-- Go function `downloadHandler`, one request processed to completion. -/
def downloadHandler (run : String → CmdResult) (s : Server) (r : Request) : Server × Response :=
  if r.method ≠ "GET" then
    (s, Response.error 405 "Invalid Request Method\n")
  else if r.url = "" then
    (s, Response.error 400 "Missing video URL\n")
  else
    match cacheLookup s.cache r.url with
    | some cachedData => (s, Response.json cachedData)
    | none =>
      match fetchVideoData run r.url s.invocations with
      | (Except.error (Failure.error err), inv) =>
        ({ s with invocations := inv },
          Response.error 500 ("Failed to fetch metadata: " ++ err ++ "\n"))
      | (Except.error (Failure.panic p), inv) =>
        ({ s with invocations := inv }, Response.aborted p)
      | (Except.ok videoData, inv) =>
        ({ cache := cacheStore s.cache r.url videoData, invocations := inv },
          Response.json videoData)

/-- Requests processed one after the other, each with the resolver as it is then. -/
def serve : Server → List ((String → CmdResult) × Request) → Server
  | s, [] => s
  | s, (run, r) :: rest => serve (downloadHandler run s r).1 rest

/-! ## The specification's words, as definitions of their own -/

/-- The link a `formats` element stands for: an object with a string `url` and a
string `format` gives one link, any other element gives none. -/
def specLink : JValue → Option VideoLink
  | JValue.obj m =>
    match mapIndex m "url", mapIndex m "format" with
    | JValue.str url, JValue.str format => some { Link := url, Quality := format }
    | _, _ => none
  | _ => none

/-- The links of a decoded object: the links of the elements of `formats`, in
order, and none when `formats` is absent or not a sequence. -/
def specLinks (metadata : GoMap) : List VideoLink :=
  match mapIndex metadata "formats" with
  | JValue.arr formats => formats.filterMap specLink
  | _ => []

/-- The category of a decoded object: the first element of `categories` when it
is a string, the default otherwise. -/
def specCategory (metadata : GoMap) : String :=
  match mapIndex metadata "categories" with
  | JValue.arr (JValue.str first :: _) => first
  | _ => "Uncategorized"

/-- Whether a float64 has an integer part that Go `int` can hold. -/
def Float64.fitsInt (f : Float64) : Prop :=
  minInt ≤ truncateRat f.toRat ∧ truncateRat f.toRat ≤ maxInt

/-- Whether a number literal is within the float64 range: its magnitude is below
`2 ^ 1024 - 2 ^ 970 = (2 ^ 54 - 1) * 2 ^ 970`, the midpoint between the largest
float64 and `2 ^ 1024`. -/
def NumLit.inRange (lit : NumLit) : Prop :=
  lit.mant.natAbs * 10 ^ lit.exp10.toNat < (2 ^ 54 - 1) * 2 ^ 970 * 10 ^ (-lit.exp10).toNat

instance (lit : NumLit) : Decidable lit.inRange := by
  unfold NumLit.inRange
  exact inferInstance

mutual
/-- Whether every number literal of a JSON text is within the float64 range. -/
def JDoc.numbersInRange : JDoc → Bool
  | JDoc.num lit => decide lit.inRange
  | JDoc.arr elems => elemsInRange elems
  | JDoc.obj members => membersInRange members
  | _ => true
/-- Whether every number literal in the elements of an array is within range. -/
def elemsInRange : List JDoc → Bool
  | [] => true
  | d :: rest => d.numbersInRange && elemsInRange rest
/-- Whether every number literal in the members of an object is within range. -/
def membersInRange : List (String × JDoc) → Bool
  | [] => true
  | (_, d) :: rest => d.numbersInRange && membersInRange rest
end

/-- Whether a JSON text is an object or `null`. -/
def JDoc.isObjectOrNull : JDoc → Bool
  | JDoc.obj _ => true
  | JDoc.null => true
  | _ => false

/-- Whether one of the members has the name `key`. -/
def membersHave : List (String × JDoc) → String → Bool
  | [], _ => false
  | (k, _) :: rest, key => if k = key then true else membersHave rest key

/-- Whether a JSON text is an object that has a member named `key`. -/
def hasField : JDoc → String → Bool
  | JDoc.obj members, key => membersHave members key
  | _, _ => false

/-- Whether the output is a valid JSON text (by the grammar of RFC 8259), whatever
its top-level value, its nesting depth and the size of its numbers. -/
def Stdout.validJSON : Stdout → Bool
  | Stdout.invalid _ => false
  | Stdout.document _ => true

/-- Whether the output is a valid JSON text whose top-level value is an object or
`null`, that is nested at most `maxNestingDepth` deep, and whose number literals
are all within the float64 range. -/
def Stdout.objectWithinLimits : Stdout → Bool
  | Stdout.invalid _ => false
  | Stdout.document d =>
    d.isObjectOrNull && decide (d.depth ≤ maxNestingDepth) && d.numbersInRange

/-- The record of sentinels. -/
def defaultMetadata : VideoMetadata :=
  { Title := "Unknown Title"
    Thumbnail := "No Thumbnail"
    Duration := 0
    Category := "Uncategorized"
    Links := Slice.nil }

/-- The float64 nearest to 125.7, which is `8845351143132365 * 2 ^ (-46)`. -/
def f125_7 : Float64 := { mant := 8845351143132365, exp := -46 }

/-- The decoded object of the scenario of the specification:
title "Cat Video", duration 125.7, categories ["Pets"], and two formats of which
the second has no `format`. -/
def catVideo : GoMap :=
  [("title", JValue.str "Cat Video"),
   ("duration", JValue.num f125_7),
   ("categories", JValue.arr [JValue.str "Pets"]),
   ("formats", JValue.arr
      [JValue.obj [("url", JValue.str "http://x/1"), ("format", JValue.str "360p")],
       JValue.obj [("url", JValue.str "http://x/2")]])]

/-- The JSON text of the scenario of the specification, which decodes to `catVideo`. -/
def catDoc : JDoc :=
  JDoc.obj
    [("title", JDoc.str "Cat Video"),
     ("duration", JDoc.num { text := "125.7", mant := 1257, exp10 := -1 }),
     ("categories", JDoc.arr [JDoc.str "Pets"]),
     ("formats", JDoc.arr
        [JDoc.obj [("url", JDoc.str "http://x/1"), ("format", JDoc.str "360p")],
         JDoc.obj [("url", JDoc.str "http://x/2")]])]

/-- The record the scenario of the specification expects for `catVideo`. -/
def catRecord : VideoMetadata :=
  { Title := "Cat Video", Thumbnail := "No Thumbnail", Duration := 125, Category := "Pets",
    Links := Slice.elems [{ Link := "http://x/1", Quality := "360p" }] }

/-- A resolver that prints the scenario's document for every URL. -/
def resolverCat : String → CmdResult :=
  fun _ => CmdResult.output (Stdout.document catDoc)

/-- A resolver that prints an empty object for every URL. -/
def resolverEmpty : String → CmdResult :=
  fun _ => CmdResult.output (Stdout.document (JDoc.obj []))

/-- A resolver whose process exits with a non-zero status. -/
def resolverFails : String → CmdResult :=
  fun _ => CmdResult.failed "exit status 1"

/-- A resolver whose output is not JSON. -/
def resolverGarbage : String → CmdResult :=
  fun _ => CmdResult.output (Stdout.invalid "unexpected end of JSON input")

/-! ## Conversion lemmas -/

theorem truncateRat_intCast (z : Int) : truncateRat (z : ℚ) = z := by
  unfold truncateRat
  split <;> simp

theorem truncateRat_div_pow (m : Int) (n : Nat) :
    truncateRat ((m : ℚ) / ((2 : ℚ) ^ n)) = Int.tdiv m ((2 : Int) ^ n) := by
  have hd : (0 : Int) < (2 : Int) ^ n := by positivity
  have hq : (0 : ℚ) < (2 : ℚ) ^ n := by positivity
  have hcast : ((2 : ℚ) ^ n) = (((2 ^ n : Nat) : ℕ) : ℚ) := by push_cast; rfl
  have hcastZ : ((2 : Int) ^ n) = (((2 ^ n : Nat) : ℕ) : Int) := by push_cast; rfl
  unfold truncateRat
  by_cases hm : 0 ≤ m
  · have h0 : (0 : ℚ) ≤ (m : ℚ) / (2 : ℚ) ^ n := by
      apply div_nonneg _ hq.le
      exact_mod_cast hm
    rw [if_pos h0, Int.tdiv_eq_ediv hm hd.le, hcast, Rat.floor_intCast_div_natCast, hcastZ]
  · have hm' : m < 0 := lt_of_not_ge hm
    have h0 : ¬ (0 : ℚ) ≤ (m : ℚ) / (2 : ℚ) ^ n := by
      rw [not_le]
      apply div_neg_of_neg_of_pos _ hq
      exact_mod_cast hm'
    rw [if_neg h0]
    have hneg : (m : ℚ) / (2 : ℚ) ^ n = -(((-m : Int) : ℚ) / (((2 ^ n : Nat) : ℕ) : ℚ)) := by
      rw [hcast]; push_cast; ring
    rw [hneg, Int.ceil_neg, Rat.floor_intCast_div_natCast]
    have h1 : Int.tdiv m ((2 : Int) ^ n) = -(Int.tdiv (-m) ((2 : Int) ^ n)) := by
      rw [Int.neg_tdiv, neg_neg]
    rw [h1, Int.tdiv_eq_ediv (by omega) hd.le, hcastZ]

/-- The computed integer part of a float64 is its exact value truncated. -/
theorem Float64.trunc_eq_truncateRat (f : Float64) : f.trunc = truncateRat f.toRat := by
  unfold Float64.trunc Float64.toRat
  by_cases he : 0 ≤ f.exp
  · rw [if_pos he]
    obtain ⟨n, hn⟩ := Int.eq_ofNat_of_zero_le he
    rw [hn]
    simp only [Int.toNat_ofNat, zpow_natCast]
    have : (f.mant : ℚ) * (2 : ℚ) ^ n = ((f.mant * (2 : Int) ^ n : Int) : ℚ) := by push_cast; ring
    rw [this, truncateRat_intCast]
  · rw [if_neg he]
    obtain ⟨n, hn⟩ := Int.eq_ofNat_of_zero_le (show 0 ≤ -f.exp by omega)
    have hexp : f.exp = -(n : Int) := by omega
    rw [hn, hexp]
    simp only [Int.toNat_ofNat, zpow_neg, zpow_natCast]
    rw [← truncateRat_div_pow]
    rfl

theorem Float64.toInt_of_fitsInt (f : Float64) (h : f.fitsInt) :
    f.toInt = truncateRat f.toRat := by
  unfold Float64.fitsInt at h
  unfold Float64.toInt
  rw [Float64.trunc_eq_truncateRat, if_pos h]

theorem Float64.toRat_nonneg_iff (f : Float64) : 0 ≤ f.toRat ↔ 0 ≤ f.mant := by
  unfold Float64.toRat
  have hp : (0 : ℚ) < (2 : ℚ) ^ f.exp := by positivity
  constructor
  · intro h
    have := nonneg_of_mul_nonneg_left h hp
    exact_mod_cast this
  · intro h
    apply mul_nonneg _ hp.le
    exact_mod_cast h

theorem truncateRat_nonneg (q : ℚ) (h : 0 ≤ q) : 0 ≤ truncateRat q := by
  unfold truncateRat
  rw [if_pos h]
  exact Int.floor_nonneg.mpr h

/-! ## Decoding of number literals and of JSON texts -/

theorem bitLength_spec (fuel n : Nat) (h : n < 2 ^ fuel) (hn : 0 < n) :
    0 < bitLength fuel n ∧ 2 ^ (bitLength fuel n - 1) ≤ n ∧ n < 2 ^ bitLength fuel n := by
  induction fuel generalizing n with
  | zero =>
    rw [pow_zero] at h
    omega
  | succ f ih =>
    have hn0 : ¬ n = 0 := by omega
    have hunf : bitLength (f + 1) n = bitLength f (n / 2) + 1 := by
      show (if n = 0 then 0 else bitLength f (n / 2) + 1) = _
      rw [if_neg hn0]
    rw [hunf]
    by_cases h1 : n / 2 = 0
    · have h1n : n = 1 := by omega
      have hz : bitLength f (n / 2) = 0 := by
        rw [h1]
        cases f <;> rfl
      rw [hz, h1n]
      refine ⟨by omega, ?_, ?_⟩ <;> norm_num
    · have hlt : n / 2 < 2 ^ f := by
        rw [pow_succ] at h; omega
      obtain ⟨hpos, ha, hb⟩ := ih (n / 2) hlt (by omega)
      simp only [Nat.add_sub_cancel]
      refine ⟨by omega, ?_, ?_⟩
      · have h2 : 2 ^ bitLength f (n / 2) = 2 * 2 ^ (bitLength f (n / 2) - 1) := by
          conv_lhs => rw [show bitLength f (n / 2) = (bitLength f (n / 2) - 1) + 1 by omega]
          rw [pow_succ]; ring
        omega
      · rw [pow_succ]; omega

theorem zpow_two_split (c : Int) :
    (2 : ℚ) ^ c = ((2 ^ c.toNat : Nat) : ℚ) / ((2 ^ (-c).toNat : Nat) : ℚ) := by
  rcases le_total 0 c with h | h
  · obtain ⟨k, rfl⟩ := Int.eq_ofNat_of_zero_le h
    simp
  · obtain ⟨k, hk⟩ := Int.eq_ofNat_of_zero_le (show 0 ≤ -c by omega)
    have hc : c = -(k : Int) := by omega
    subst hc
    simp

theorem scaled_le_iff (n d : Nat) (hd : 0 < d) (c : Int) :
    d * 2 ^ c.toNat ≤ n * 2 ^ (-c).toNat ↔ (2 : ℚ) ^ c ≤ (n : ℚ) / d := by
  rw [zpow_two_split]
  have hd' : (0 : ℚ) < d := by exact_mod_cast hd
  have hp : (0 : ℚ) < ((2 ^ (-c).toNat : Nat) : ℚ) := by positivity
  rw [div_le_div_iff₀ hp hd']
  constructor
  · intro h
    have : ((d * 2 ^ c.toNat : Nat) : ℚ) ≤ ((n * 2 ^ (-c).toNat : Nat) : ℚ) := by exact_mod_cast h
    push_cast at this ⊢
    linarith
  · intro h
    have : ((2 ^ c.toNat * d : Nat) : ℚ) ≤ ((n * 2 ^ (-c).toNat : Nat) : ℚ) := by
      push_cast; push_cast at h; linarith
    have h2 : 2 ^ c.toNat * d ≤ n * 2 ^ (-c).toNat := by exact_mod_cast this
    linarith

theorem binaryExponent_spec (n d : Nat) (hn : 0 < n) (hd : 0 < d) :
    (2 : ℚ) ^ binaryExponent n d ≤ (n : ℚ) / d ∧
      (n : ℚ) / d < (2 : ℚ) ^ (binaryExponent n d + 1) := by
  obtain ⟨hnpos, hn1, hn2⟩ := bitLength_spec n n (Nat.lt_two_pow n) hn
  obtain ⟨hdpos, hd1, hd2⟩ := bitLength_spec d d (Nat.lt_two_pow d) hd
  have hd' : (0 : ℚ) < d := by exact_mod_cast hd
  have hn' : (0 : ℚ) < n := by exact_mod_cast hn
  set Ln := bitLength n n with hLn
  set Ld := bitLength d d with hLd
  have qn1 : (2 : ℚ) ^ ((Ln : Int) - 1) ≤ n := by
    have : ((2 ^ (Ln - 1) : Nat) : ℚ) ≤ n := by exact_mod_cast hn1
    rw [show ((Ln : Int) - 1) = ((Ln - 1 : Nat) : Int) by omega, zpow_natCast]
    exact_mod_cast this
  have qn2 : (n : ℚ) < (2 : ℚ) ^ (Ln : Int) := by
    rw [zpow_natCast]; exact_mod_cast hn2
  have qd1 : (2 : ℚ) ^ ((Ld : Int) - 1) ≤ d := by
    have : ((2 ^ (Ld - 1) : Nat) : ℚ) ≤ d := by exact_mod_cast hd1
    rw [show ((Ld : Int) - 1) = ((Ld - 1 : Nat) : Int) by omega, zpow_natCast]
    exact_mod_cast this
  have qd2 : (d : ℚ) < (2 : ℚ) ^ (Ld : Int) := by
    rw [zpow_natCast]; exact_mod_cast hd2
  have two_pos : ∀ z : Int, (0 : ℚ) < (2 : ℚ) ^ z := fun z => by positivity
  -- bounds on the quotient
  have hlow : (2 : ℚ) ^ ((Ln : Int) - Ld - 1) < (n : ℚ) / d := by
    rw [lt_div_iff₀ hd']
    calc (2 : ℚ) ^ ((Ln : Int) - Ld - 1) * d
        < (2 : ℚ) ^ ((Ln : Int) - Ld - 1) * (2 : ℚ) ^ (Ld : Int) :=
          mul_lt_mul_of_pos_left qd2 (two_pos _)
      _ = (2 : ℚ) ^ ((Ln : Int) - 1) := by
          rw [← zpow_add₀ (by norm_num : (2 : ℚ) ≠ 0)]; congr 1; ring
      _ ≤ n := qn1
  have hhigh : (n : ℚ) / d < (2 : ℚ) ^ ((Ln : Int) - Ld + 1) := by
    rw [div_lt_iff₀ hd']
    calc (n : ℚ) < (2 : ℚ) ^ (Ln : Int) := qn2
      _ = (2 : ℚ) ^ ((Ln : Int) - Ld + 1) * (2 : ℚ) ^ ((Ld : Int) - 1) := by
          rw [← zpow_add₀ (by norm_num : (2 : ℚ) ≠ 0)]; congr 1; ring
      _ ≤ (2 : ℚ) ^ ((Ln : Int) - Ld + 1) * d :=
          mul_le_mul_of_nonneg_left qd1 (two_pos _).le
  unfold binaryExponent
  rw [← hLn, ← hLd]
  by_cases ht : d * 2 ^ ((Ln : Int) - (Ld : Int)).toNat ≤ n * 2 ^ (-((Ln : Int) - (Ld : Int))).toNat
  · rw [if_pos ht]
    exact ⟨(scaled_le_iff n d hd _).mp ht, hhigh⟩
  · rw [if_neg ht]
    rw [scaled_le_iff n d hd] at ht
    refine ⟨hlow.le, ?_⟩
    rw [sub_add_cancel]
    exact lt_of_not_ge ht

theorem roundHalfEven_le (N D : Nat) (hD : 0 < D) (h : N < 2 ^ 53 * D) :
    roundHalfEven N D ≤ 2 ^ 53 := by
  have hq : N / D < 2 ^ 53 := (Nat.div_lt_iff_lt_mul hD).mpr h
  unfold roundHalfEven
  split
  · omega
  · split <;> omega

theorem roundHalfEven_eq_top (N D : Nat) (hD : 0 < D) (h : roundHalfEven N D = 2 ^ 53) :
    (2 ^ 54 - 1) * D ≤ 2 * N := by
  have hdm := Nat.div_add_mod N D
  have hr := Nat.mod_lt N hD
  unfold roundHalfEven at h
  generalize N / D = q at h hdm
  generalize N % D = r at h hdm hr
  by_cases h1 : 2 * r < D
  · rw [if_pos h1] at h
    subst h
    omega
  · rw [if_neg h1] at h
    by_cases h2 : D < 2 * r
    · rw [if_pos h2] at h
      have hq : q = 2 ^ 53 - 1 := by omega
      subst hq
      omega
    · rw [if_neg h2] at h
      have hq : q = 2 ^ 53 ∨ q = 2 ^ 53 - 1 := by omega
      rcases hq with hq | hq
      · subst hq
        omega
      · subst hq
        omega

theorem roundHalfEven_ge_top (N D : Nat) (hD : 0 < D) (h : (2 ^ 54 - 1) * D ≤ 2 * N) :
    2 ^ 53 ≤ roundHalfEven N D := by
  have hdm := Nat.div_add_mod N D
  have hr := Nat.mod_lt N hD
  have hq : 2 ^ 53 - 1 ≤ N / D := by
    rw [Nat.le_div_iff_mul_le hD]; omega
  unfold roundHalfEven
  by_cases hq2 : 2 ^ 53 ≤ N / D
  · split
    · exact hq2
    · split <;> omega
  · have hq3 : N / D = 2 ^ 53 - 1 := by omega
    rw [hq3] at hdm ⊢
    split
    · omega
    · split <;> omega

theorem nat_mul_le_iff_rat (K n d : Nat) (hd : 0 < d) :
    K * d ≤ n ↔ (K : ℚ) ≤ (n : ℚ) / d := by
  have hd' : (0 : ℚ) < d := by exact_mod_cast hd
  rw [le_div_iff₀ hd']
  constructor
  · intro h; exact_mod_cast h
  · intro h; exact_mod_cast h

theorem nearestFloat64_none_iff_overflow (sign : Int) (n d : Nat) :
    nearestFloat64 sign n d = none ↔
      (float64Mantissa n d = 2 ^ 53 ∧ 971 ≤ float64Exponent n d) ∨
        972 ≤ float64Exponent n d := by
  unfold nearestFloat64
  by_cases hm : float64Mantissa n d = 2 ^ 53
  · rw [if_pos hm]
    by_cases he : 971 < float64Exponent n d + 1
    · rw [if_pos he]
      simp only [true_iff]
      left
      exact ⟨hm, by omega⟩
    · rw [if_neg he]
      constructor
      · intro h
        cases h
      · intro h
        exfalso
        omega
  · rw [if_neg hm]
    by_cases he : 971 < float64Exponent n d
    · rw [if_pos he]
      simp only [true_iff]
      right
      omega
    · rw [if_neg he]
      constructor
      · intro h
        cases h
      · rintro (⟨h1, _⟩ | h2)
        · exact absurd h1 hm
        · exfalso
          omega

theorem nearestFloat64_eq_none_iff (sign : Int) (n d : Nat) (hn : 0 < n) (hd : 0 < d) :
    nearestFloat64 sign n d = none ↔ (2 ^ 54 - 1) * 2 ^ 970 * d ≤ n := by
  rw [nearestFloat64_none_iff_overflow]
  obtain ⟨hlo, hhi⟩ := binaryExponent_spec n d hn hd
  have hedef : float64Exponent n d = max (binaryExponent n d - 52) (-1074) := rfl
  have hmdef : float64Mantissa n d =
      roundHalfEven (n * 2 ^ (-(float64Exponent n d)).toNat)
        (d * 2 ^ (float64Exponent n d).toNat) := rfl
  have h2 : (1 : ℚ) < 2 := by norm_num
  have hd' : (0 : ℚ) < d := by exact_mod_cast hd
  constructor
  · rintro (⟨hm, he⟩ | he)
    · by_cases he2 : 972 ≤ float64Exponent n d
      · -- same as the second case
        have he0 : (1024 : Int) ≤ binaryExponent n d := by
          rw [hedef] at he2
          rcases le_max_iff.mp he2 with h | h <;> omega
        have hq : (2 : ℚ) ^ (1024 : Int) ≤ (n : ℚ) / d :=
          le_trans (zpow_le_zpow_right₀ h2.le he0) hlo
        have hK : (((2 ^ 1024 : Nat)) : ℚ) ≤ (n : ℚ) / d := by
          have : (((2 ^ 1024 : Nat)) : ℚ) = (2 : ℚ) ^ (1024 : Int) := by norm_cast
          rw [this]; exact hq
        have := (nat_mul_le_iff_rat (2 ^ 1024) n d hd).mpr hK
        have hle : (2 ^ 54 - 1) * 2 ^ 970 * d ≤ 2 ^ 1024 * d :=
          Nat.mul_le_mul_right d (by norm_num)
        omega
      · have he3 : float64Exponent n d = 971 := by omega
        rw [he3] at hmdef
        have hN : (-(971 : Int)).toNat = 0 := by decide
        have hDn : (971 : Int).toNat = 971 := by decide
        rw [hN, hDn, pow_zero, Nat.mul_one] at hmdef
        rw [hmdef] at hm
        have := roundHalfEven_eq_top n (d * 2 ^ 971) (by positivity) hm
        have h971 : (2 : Nat) ^ 971 = 2 * 2 ^ 970 := by rw [← pow_succ']
        rw [h971] at this
        have e1 : (2 ^ 54 - 1) * (d * (2 * 2 ^ 970)) = 2 * ((2 ^ 54 - 1) * 2 ^ 970 * d) := by ring
        rw [e1] at this
        omega
    · have he0 : (1024 : Int) ≤ binaryExponent n d := by
        rw [hedef] at he
        rcases le_max_iff.mp he with h | h <;> omega
      have hq : (2 : ℚ) ^ (1024 : Int) ≤ (n : ℚ) / d :=
        le_trans (zpow_le_zpow_right₀ h2.le he0) hlo
      have hK : (((2 ^ 1024 : Nat)) : ℚ) ≤ (n : ℚ) / d := by
        have : (((2 ^ 1024 : Nat)) : ℚ) = (2 : ℚ) ^ (1024 : Int) := by norm_cast
        rw [this]; exact hq
      have := (nat_mul_le_iff_rat (2 ^ 1024) n d hd).mpr hK
      have hle : (2 ^ 54 - 1) * 2 ^ 970 * d ≤ 2 ^ 1024 * d :=
        Nat.mul_le_mul_right d (by norm_num)
      omega
  · intro hT
    -- the quotient is at least 2 ^ 1023, so the binary exponent is at least 1023
    have hT' : 2 ^ 1023 * d ≤ n := by
      have hle : 2 ^ 1023 * d ≤ (2 ^ 54 - 1) * 2 ^ 970 * d :=
        Nat.mul_le_mul_right d (by norm_num)
      omega
    have hq : (2 : ℚ) ^ (1023 : Int) ≤ (n : ℚ) / d := by
      have h := (nat_mul_le_iff_rat (2 ^ 1023) n d hd).mp hT'
      have : (((2 ^ 1023 : Nat)) : ℚ) = (2 : ℚ) ^ (1023 : Int) := by norm_cast
      rw [this] at h; exact h
    have he0 : (1023 : Int) ≤ binaryExponent n d := by
      have := lt_of_le_of_lt hq hhi
      have := (zpow_lt_zpow_iff_right₀ h2).mp this
      omega
    by_cases he0' : (1024 : Int) ≤ binaryExponent n d
    · right
      rw [hedef]
      exact le_max_of_le_left (by omega)
    · left
      have he1 : binaryExponent n d = 1023 := by omega
      have he3 : float64Exponent n d = 971 := by
        rw [hedef, he1]; decide
      refine ⟨?_, by omega⟩
      rw [he3] at hmdef
      have hN : (-(971 : Int)).toNat = 0 := by decide
      have hDn : (971 : Int).toNat = 971 := by decide
      rw [hN, hDn, pow_zero, Nat.mul_one] at hmdef
      rw [hmdef]
      have h971 : (2 : Nat) ^ 971 = 2 * 2 ^ 970 := by rw [← pow_succ']
      apply le_antisymm
      · apply roundHalfEven_le n (d * 2 ^ 971) (by positivity)
        -- n < 2 ^ 1024 * d
        rw [he1] at hhi
        have hh : (n : ℚ) / d < (((2 ^ 1024 : Nat)) : ℚ) := by
          have : (((2 ^ 1024 : Nat)) : ℚ) = (2 : ℚ) ^ ((1023 : Int) + 1) := by norm_cast
          rw [this]; exact hhi
        have hlt : n < 2 ^ 1024 * d := by
          by_contra hcon
          have := (nat_mul_le_iff_rat (2 ^ 1024) n d hd).mp (by omega)
          exact absurd hh (not_lt.mpr this)
        have e2 : 2 ^ 53 * (d * 2 ^ 971) = 2 ^ 1024 * d := by ring
        rw [e2]; exact hlt
      · apply roundHalfEven_ge_top n (d * 2 ^ 971) (by positivity)
        rw [h971]
        have e1 : (2 ^ 54 - 1) * (d * (2 * 2 ^ 970)) = 2 * ((2 ^ 54 - 1) * 2 ^ 970 * d) := by ring
        rw [e1]
        omega

/-- A number literal gets the range error exactly when its magnitude is at least
`(2 ^ 54 - 1) * 2 ^ 970`. -/
theorem NumLit.toFloat64_eq_none_iff (lit : NumLit) :
    lit.toFloat64 = none ↔ ¬ lit.inRange := by
  unfold NumLit.toFloat64 NumLit.inRange
  by_cases hm : lit.mant = 0
  · rw [if_pos hm, hm]
    constructor
    · intro h
      cases h
    · intro h
      exfalso
      apply h
      simp only [Int.natAbs_zero, Nat.zero_mul]
      positivity
  · rw [if_neg hm, nearestFloat64_eq_none_iff _ _ _
      (Nat.mul_pos (Int.natAbs_pos.mpr hm) (by positivity)) (by positivity), not_lt]

theorem convertNumber_ok_iff (lit : NumLit) :
    (∃ f, convertNumber lit = Except.ok f) ↔ lit.inRange := by
  unfold convertNumber
  cases h : lit.toFloat64 with
  | none =>
    have := (NumLit.toFloat64_eq_none_iff lit).mp h
    simp [this]
  | some f =>
    have : lit.inRange := by
      by_contra hc
      rw [(NumLit.toFloat64_eq_none_iff lit).mpr hc] at h
      cases h
    simp [this]

mutual
theorem decodeValue_ok_iff :
    (d : JDoc) → ((∃ v, decodeValue d = Except.ok v) ↔ d.numbersInRange = true)
  | JDoc.null => by simp [decodeValue, JDoc.numbersInRange]
  | JDoc.bool b => by simp [decodeValue, JDoc.numbersInRange]
  | JDoc.str s => by simp [decodeValue, JDoc.numbersInRange]
  | JDoc.num lit => by
    have h := convertNumber_ok_iff lit
    simp only [decodeValue, JDoc.numbersInRange, decide_eq_true_eq]
    rw [← h]
    cases convertNumber lit <;> simp
  | JDoc.arr elems => by
    have h := decodeArray_ok_iff elems
    simp only [decodeValue, JDoc.numbersInRange]
    rw [← h]
    cases decodeArray elems <;> simp
  | JDoc.obj members => by
    have h := decodeObject_ok_iff members []
    simp only [decodeValue, JDoc.numbersInRange]
    rw [← h]
    cases decodeObject members [] <;> simp
theorem decodeArray_ok_iff :
    (ds : List JDoc) → ((∃ vs, decodeArray ds = Except.ok vs) ↔ elemsInRange ds = true)
  | [] => by simp [decodeArray, elemsInRange]
  | d :: rest => by
    have h1 := decodeValue_ok_iff d
    have h2 := decodeArray_ok_iff rest
    simp only [decodeArray, elemsInRange, Bool.and_eq_true]
    rw [← h1, ← h2]
    cases decodeValue d <;> cases decodeArray rest <;> simp
theorem decodeObject_ok_iff :
    (ms : List (String × JDoc)) → (acc : GoMap) →
      ((∃ m, decodeObject ms acc = Except.ok m) ↔ membersInRange ms = true)
  | [], acc => by simp [decodeObject, membersInRange]
  | (k, d) :: rest, acc => by
    have h1 := decodeValue_ok_iff d
    simp only [decodeObject, membersInRange, Bool.and_eq_true]
    rw [← h1]
    cases hd : decodeValue d with
    | error e => simp
    | ok v =>
      have h2 := decodeObject_ok_iff rest (mapStore acc k v)
      simp [h2]
end

/-! ## Lemmas on map reads and on the parts of `fetchVideoData` -/

theorem mapIndex_mapStore_other (m : GoMap) (k key : String) (v : JValue) (h : k ≠ key) :
    mapIndex (mapStore m k v) key = mapIndex m key := by
  induction m with
  | nil => simp [mapStore, mapIndex, h]
  | cons p rest ih =>
    obtain ⟨k', v'⟩ := p
    by_cases hk : k' = k
    · subst hk
      simp [mapStore, mapIndex, h]
    · by_cases ho : k' = key
      · subst ho
        simp [mapStore, mapIndex, hk]
      · simp [mapStore, mapIndex, hk, ho, ih]

theorem decodeObject_absent (ms : List (String × JDoc)) (acc m : GoMap) (key : String)
    (hdec : decodeObject ms acc = Except.ok m) (h : membersHave ms key = false) :
    mapIndex m key = mapIndex acc key := by
  induction ms generalizing acc with
  | nil =>
    simp only [decodeObject, Except.ok.injEq] at hdec
    rw [hdec]
  | cons p rest ih =>
    obtain ⟨k, d⟩ := p
    unfold membersHave at h
    by_cases hk : k = key
    · simp [hk] at h
    · simp only [hk, if_false] at h
      simp only [decodeObject] at hdec
      cases hv : decodeValue d with
      | error e =>
        rw [hv] at hdec
        cases hdec
      | ok v =>
        rw [hv] at hdec
        rw [ih _ hdec h, mapIndex_mapStore_other _ _ _ _ hk]

theorem linkStep_toList (links : Slice VideoLink) (format : JValue) :
    (fetchVideoData.linkStep links format).toList =
      links.toList ++ (specLink format).toList := by
  cases format with
  | obj m =>
    simp only [fetchVideoData.linkStep, asMap, specLink]
    cases hu : mapIndex m "url" <;> cases hf : mapIndex m "format" <;>
      simp [asString, Slice.append, Slice.toList]
  | _ => simp [fetchVideoData.linkStep, asMap, specLink]

theorem foldl_linkStep_toList (formats : List JValue) (links : Slice VideoLink) :
    (formats.foldl fetchVideoData.linkStep links).toList =
      links.toList ++ formats.filterMap specLink := by
  induction formats generalizing links with
  | nil => simp
  | cons format rest ih =>
    rw [List.foldl_cons, ih, linkStep_toList]
    cases h : specLink format <;> simp [List.filterMap_cons, h]

theorem links_toList (metadata : GoMap) :
    (fetchVideoData.links metadata).toList = specLinks metadata := by
  unfold fetchVideoData.links specLinks
  cases h : mapIndex metadata "formats" with
  | arr elems =>
    simp only [asSlice]
    rw [foldl_linkStep_toList]
    simp [Slice.toList]
  | _ => simp [asSlice, Slice.toList]

theorem category_eq (metadata : GoMap) :
    fetchVideoData.category metadata = Except.ok (specCategory metadata) := by
  unfold fetchVideoData.category specCategory
  cases h : mapIndex metadata "categories" with
  | arr elems =>
    cases elems with
    | nil => simp [asSlice]
    | cons first rest => cases first <;> simp [asSlice, asString]
  | _ => simp [asSlice]

theorem build_eq (metadata : GoMap) :
    fetchVideoData.build metadata = Except.ok
      { Title := fetchVideoData.title metadata
        Thumbnail := fetchVideoData.thumbnail metadata
        Duration := fetchVideoData.duration metadata
        Category := specCategory metadata
        Links := fetchVideoData.links metadata } := by
  unfold fetchVideoData.build
  rw [category_eq]

/-! ## The normaliser -/

/-- C1: the links of the record built from a decoded object are exactly the links
of the elements of `formats` that are objects with a string `url` and a string
`format`, in that order and with repetitions kept; when `formats` is absent or
not a sequence there are none. -/
theorem links_are_filtered_formats (metadata : GoMap) :
    ∃ v, fetchVideoData.build metadata = Except.ok v ∧
      v.Links.toList = specLinks metadata ∧
      (∀ formats, mapIndex metadata "formats" = JValue.arr formats →
        v.Links.toList = formats.filterMap specLink) ∧
      (asSlice (mapIndex metadata "formats") = none → v.Links.toList = []) := by
  refine ⟨_, build_eq metadata, links_toList metadata, ?_, ?_⟩
  · intro formats h
    simp only [links_toList, specLinks, h]
  · intro h
    simp only [links_toList, specLinks]
    cases hm : mapIndex metadata "formats" <;> simp_all [asSlice]

/-- C3: the category of the record built from a decoded object is the first
element of `categories` when that is a string and the default in every other
case; building the record never panics, in particular not on an empty `categories`. -/
theorem category_first_or_default (metadata : GoMap) :
    ∃ v, fetchVideoData.build metadata = Except.ok v ∧
      v.Category = specCategory metadata ∧
      (∀ first rest, mapIndex metadata "categories" = JValue.arr (JValue.str first :: rest) →
        v.Category = first) ∧
      (mapIndex metadata "categories" = JValue.arr [] → v.Category = "Uncategorized") ∧
      (asSlice (mapIndex metadata "categories") = none → v.Category = "Uncategorized") ∧
      (∀ first rest, mapIndex metadata "categories" = JValue.arr (first :: rest) →
        asString first = none → v.Category = "Uncategorized") := by
  refine ⟨_, build_eq metadata, rfl, ?_, ?_, ?_, ?_⟩
  · intro first rest h
    simp only [specCategory, h]
  · intro h
    simp only [specCategory, h]
  · intro h
    simp only [specCategory]
    cases hm : mapIndex metadata "categories" <;> simp_all [asSlice]
  · intro first rest h hs
    simp only [specCategory, h]
    cases first <;> simp_all [asString]

/-- C5 as stated fails: the float64 `2 ^ 63` is a JSON number whose truncation is
`9223372036854775808`, more than Go `int` can hold; the record gets another value. -/
theorem duration_beyond_int_counterexample :
    Float64.representable { mant := 1, exp := 63 } ∧
    truncateRat (Float64.toRat { mant := 1, exp := 63 }) = 9223372036854775808 ∧
    maxInt < truncateRat (Float64.toRat { mant := 1, exp := 63 }) ∧
    ∃ v, fetchVideoData.build [("duration", JValue.num { mant := 1, exp := 63 })] =
        Except.ok v ∧
      v.Duration ≠ truncateRat (Float64.toRat { mant := 1, exp := 63 }) := by
  have ht : truncateRat (Float64.toRat { mant := 1, exp := 63 }) = 9223372036854775808 := by
    rw [← Float64.trunc_eq_truncateRat]
    decide
  refine ⟨by decide, ht, ?_, _, build_eq _, ?_⟩
  · rw [ht]
    decide
  · rw [ht]
    decide

/-- C5, amended: the duration of the record built from a decoded object is the
`duration` number truncated to an integer whenever that integer fits in Go `int`,
and 0 when `duration` is absent or not a number. -/
theorem duration_truncated_when_it_fits (metadata : GoMap) :
    ∃ v, fetchVideoData.build metadata = Except.ok v ∧
      (∀ d, mapIndex metadata "duration" = JValue.num d → d.fitsInt →
        v.Duration = truncateRat d.toRat) ∧
      (asFloat64 (mapIndex metadata "duration") = none → v.Duration = 0) := by
  refine ⟨_, build_eq metadata, ?_, ?_⟩
  · intro d h hfit
    simp only [fetchVideoData.duration, h, asFloat64]
    exact Float64.toInt_of_fitsInt d hfit
  · intro h
    simp only [fetchVideoData.duration, h]

/-- The scenario of the specification: 125.7 gives 125. -/
theorem duration_truncated_witness :
    ∃ v, fetchVideoData.build catVideo = Except.ok v ∧ v.Duration = 125 := by
  obtain ⟨v, hv, hnum, _⟩ := duration_truncated_when_it_fits catVideo
  refine ⟨v, hv, ?_⟩
  have hfit : f125_7.fitsInt := by
    unfold Float64.fitsInt
    rw [← Float64.trunc_eq_truncateRat]
    decide
  rw [hnum f125_7 rfl hfit, ← Float64.trunc_eq_truncateRat]
  decide

/-- C10 as stated fails: on the output `{"duration": -5}` the call succeeds with
a negative duration. -/
theorem negative_duration_counterexample :
    ∃ v, (fetchVideoData
        (fun _ => CmdResult.output (Stdout.document
          (JDoc.obj [("duration", JDoc.num { text := "-5", mant := -5, exp10 := 0 })])))
        "http://x" []).1 = Except.ok v ∧ v.Duration = -5 ∧ ¬ 0 ≤ v.Duration := by
  refine ⟨{ Title := "Unknown Title", Thumbnail := "No Thumbnail", Duration := -5,
            Category := "Uncategorized", Links := Slice.nil }, by decide, by decide, by decide⟩

/-- C10, amended: when the normaliser succeeds on an output, and the `duration` of
the decoded object is absent, not a number, or a float64 (the literal rounded to
the nearest float64) that is not negative and whose integer part fits in Go `int`,
the duration of the record is not negative. -/
theorem duration_nonneg_of_nonneg (out : Stdout) (metadata : GoMap) (v : VideoMetadata)
    (hdec : unmarshal out = Except.ok metadata)
    (hok : fetchVideoData.normalise out = Except.ok v)
    (hd : ∀ d, mapIndex metadata "duration" = JValue.num d → 0 ≤ d.toRat ∧ d.fitsInt) :
    0 ≤ v.Duration := by
  unfold fetchVideoData.normalise at hok
  rw [hdec] at hok
  simp only [build_eq, Except.ok.injEq] at hok
  subst hok
  show 0 ≤ fetchVideoData.duration metadata
  unfold fetchVideoData.duration
  cases h : mapIndex metadata "duration" with
  | num d =>
    obtain ⟨hpos, hfit⟩ := hd d h
    simp only [asFloat64]
    rw [Float64.toInt_of_fitsInt d hfit]
    exact truncateRat_nonneg _ hpos
  | _ => simp [asFloat64]

/-- The scenario of the specification: the literal 125.7 decodes to a float64 that
is not negative and whose integer part fits, and the record has duration 125. -/
theorem duration_nonneg_witness :
    unmarshal (Stdout.document catDoc) = Except.ok catVideo ∧
    fetchVideoData.normalise (Stdout.document catDoc) = Except.ok catRecord ∧
    0 ≤ catRecord.Duration := by
  have hdec : unmarshal (Stdout.document catDoc) = Except.ok catVideo := by rfl
  refine ⟨hdec, by decide, ?_⟩
  refine duration_nonneg_of_nonneg (Stdout.document catDoc) catVideo
    catRecord hdec (by decide) ?_
  intro d hd
  have hd' : d = f125_7 := by
    have : mapIndex catVideo "duration" = JValue.num f125_7 := rfl
    rw [this] at hd
    exact (JValue.num.inj hd).symm
  subst hd'
  constructor
  · rw [Float64.toRat_nonneg_iff]
    decide
  · unfold Float64.fitsInt
    rw [← Float64.trunc_eq_truncateRat]
    decide

/-- The literal `9223372036854775807` is not negative and is itself an `int`, but
the decoder rounds it to the float64 `2 ^ 63`, whose integer part does not fit, and
the record gets the smallest `int`: what matters for the duration is the decoded
float64, not the literal. -/
theorem largest_int_literal_rounds_up :
    NumLit.toFloat64 { text := "9223372036854775807", mant := 9223372036854775807, exp10 := 0 } =
      some { mant := 4503599627370496, exp := 11 } ∧
    Float64.trunc { mant := 4503599627370496, exp := 11 } = 9223372036854775808 ∧
    fetchVideoData.normalise (Stdout.document (JDoc.obj
      [("duration", JDoc.num
        { text := "9223372036854775807", mant := 9223372036854775807, exp10 := 0 })])) =
      Except.ok { Title := "Unknown Title", Thumbnail := "No Thumbnail",
                  Duration := -9223372036854775808, Category := "Uncategorized",
                  Links := Slice.nil } := by
  exact ⟨by decide, by decide, by decide⟩

theorem normalise_of_unmarshal_ok (out : Stdout) (m : GoMap)
    (h : unmarshal out = Except.ok m) :
    fetchVideoData.normalise out = Except.ok
      { Title := fetchVideoData.title m
        Thumbnail := fetchVideoData.thumbnail m
        Duration := fetchVideoData.duration m
        Category := specCategory m
        Links := fetchVideoData.links m } := by
  unfold fetchVideoData.normalise
  rw [h]
  exact build_eq m

theorem normalise_of_unmarshal_error (out : Stdout) (e : String)
    (h : unmarshal out = Except.error e) :
    fetchVideoData.normalise out =
      Except.error (Failure.error ("failed to parse metadata: " ++ e)) := by
  unfold fetchVideoData.normalise
  rw [h]

theorem unmarshal_ok_iff (out : Stdout) :
    (∃ m, unmarshal out = Except.ok m) ↔ out.objectWithinLimits = true := by
  cases out with
  | invalid e => simp [unmarshal, Stdout.objectWithinLimits]
  | document d =>
    by_cases hdep : maxNestingDepth < d.depth
    · have hnot : ¬ d.depth ≤ maxNestingDepth := by omega
      simp [unmarshal, Stdout.objectWithinLimits, hdep, hnot]
    · have hle : d.depth ≤ maxNestingDepth := by omega
      cases d with
      | obj members =>
        have h := decodeObject_ok_iff members []
        simp only [unmarshal, if_neg hdep, Stdout.objectWithinLimits, JDoc.isObjectOrNull,
          JDoc.numbersInRange, hle, decide_True, Bool.and_self, Bool.true_and]
        exact h
      | null =>
        simp [unmarshal, Stdout.objectWithinLimits, JDoc.isObjectOrNull,
          JDoc.numbersInRange, hdep, hle]
      | bool b => simp [unmarshal, Stdout.objectWithinLimits, JDoc.isObjectOrNull, hdep]
      | num lit => simp [unmarshal, Stdout.objectWithinLimits, JDoc.isObjectOrNull, hdep]
      | str s => simp [unmarshal, Stdout.objectWithinLimits, JDoc.isObjectOrNull, hdep]
      | arr elems => simp [unmarshal, Stdout.objectWithinLimits, JDoc.isObjectOrNull, hdep]

theorem unmarshal_absent (d : JDoc) (m : GoMap) (key : String)
    (hdec : unmarshal (Stdout.document d) = Except.ok m) (h : hasField d key = false) :
    mapIndex m key = JValue.null := by
  by_cases hdep : maxNestingDepth < d.depth
  · simp [unmarshal, hdep] at hdec
  · cases d with
    | obj members =>
      simp only [unmarshal, if_neg hdep] at hdec
      exact decodeObject_absent members [] m key hdec h
    | null =>
      simp only [unmarshal, if_neg hdep, Except.ok.injEq] at hdec
      rw [← hdec]
      rfl
    | bool b => simp [unmarshal, hdep] at hdec
    | num lit => simp [unmarshal, hdep] at hdec
    | str s => simp [unmarshal, hdep] at hdec
    | arr elems => simp [unmarshal, hdep] at hdec

theorem normalise_never_panics (out : Stdout) (p : String) :
    fetchVideoData.normalise out ≠ Except.error (Failure.panic p) := by
  intro hp
  cases h : unmarshal out with
  | error e =>
    rw [normalise_of_unmarshal_error out e h] at hp
    cases hp
  | ok m =>
    rw [normalise_of_unmarshal_ok out m h] at hp
    cases hp

/-- C2 as stated fails: on the output `{}` the record is returned with `Links`
left as the nil slice, which is not a non-nil empty sequence. -/
theorem empty_object_links_nil_counterexample :
    ∃ v, fetchVideoData.normalise (Stdout.document (JDoc.obj [])) = Except.ok v ∧
      v.Links = Slice.nil ∧ v.Links.isNil = true ∧ v.Links ≠ Slice.elems [] := by
  refine ⟨defaultMetadata, by decide, by decide, by decide, by decide⟩

/-- C2, amended: on every output that is a valid JSON text whose top-level value is
an object (or `null`), that is nested at most 10000 deep, whose number literals are
all within the float64 range, and that has none of the fields `title`, `thumbnail`,
`duration`, `categories`, `formats`, the normaliser returns without error the
record of the four sentinels with `Links` the nil slice. -/
theorem defaults_when_fields_absent (d : JDoc)
    (hobj : d.isObjectOrNull = true)
    (hdepth : d.depth ≤ maxNestingDepth)
    (hnum : d.numbersInRange = true)
    (htitle : hasField d "title" = false)
    (hthumb : hasField d "thumbnail" = false)
    (hdur : hasField d "duration" = false)
    (hcat : hasField d "categories" = false)
    (hfmt : hasField d "formats" = false) :
    fetchVideoData.normalise (Stdout.document d) = Except.ok
      { Title := "Unknown Title", Thumbnail := "No Thumbnail", Duration := 0,
        Category := "Uncategorized", Links := Slice.nil } := by
  have hlim : (Stdout.document d).objectWithinLimits = true := by
    simp [Stdout.objectWithinLimits, hobj, hdepth, hnum]
  obtain ⟨m, hm⟩ := (unmarshal_ok_iff (Stdout.document d)).mpr hlim
  rw [normalise_of_unmarshal_ok _ m hm]
  simp only [fetchVideoData.title, fetchVideoData.thumbnail, fetchVideoData.duration,
    fetchVideoData.links, specCategory, unmarshal_absent d m _ hm htitle,
    unmarshal_absent d m _ hm hthumb, unmarshal_absent d m _ hm hdur,
    unmarshal_absent d m _ hm hcat, unmarshal_absent d m _ hm hfmt,
    asString, asFloat64, asSlice]

/-- An object with an `id` string and a `view_count` number, and none of the five
fields, gives the record of sentinels. -/
theorem defaults_when_fields_absent_witness :
    fetchVideoData.normalise (Stdout.document (JDoc.obj
      [("id", JDoc.str "abc"),
       ("view_count", JDoc.num { text := "1e3", mant := 1, exp10 := 3 })])) =
      Except.ok
        { Title := "Unknown Title", Thumbnail := "No Thumbnail", Duration := 0,
          Category := "Uncategorized", Links := Slice.nil } :=
  defaults_when_fields_absent (JDoc.obj
      [("id", JDoc.str "abc"),
       ("view_count", JDoc.num { text := "1e3", mant := 1, exp10 := 3 })])
    (by decide) (by decide) (by decide) (by decide) (by decide) (by decide) (by decide)
    (by decide)

/-- C4 as stated fails: the output `[]` is a valid JSON document and the
normaliser returns an error on it. -/
theorem valid_json_array_counterexample :
    Stdout.validJSON (Stdout.document (JDoc.arr [])) = true ∧
    fetchVideoData.normalise (Stdout.document (JDoc.arr [])) = Except.error (Failure.error
      "failed to parse metadata: json: cannot unmarshal array into Go value of type map[string]interface \x7b\x7d") := by
  exact ⟨by decide, by decide⟩

/-- The output `{"x": 1e400}` is a valid JSON object, and the normaliser returns an
error on it: the literal is beyond the float64 range. -/
theorem overflowing_literal_is_rejected :
    Stdout.validJSON (Stdout.document (JDoc.obj
      [("x", JDoc.num { text := "1e400", mant := 1, exp10 := 400 })])) = true ∧
    fetchVideoData.normalise (Stdout.document (JDoc.obj
      [("x", JDoc.num { text := "1e400", mant := 1, exp10 := 400 })])) =
      Except.error (Failure.error
        "failed to parse metadata: json: cannot unmarshal number 1e400 into Go value of type float64") := by
  exact ⟨by decide, by decide⟩

/-- C4, amended: the normaliser returns a record and no error exactly when the
output is a valid JSON text whose top-level value is an object or `null`, that is
nested at most 10000 deep and whose number literals are all within the float64
range, whatever the types of the fields; on every other output (not valid JSON,
or valid JSON of another kind, nested deeper, or with a number literal out of
range) it returns an error; it never panics. -/
theorem normalise_ok_iff_object_within_limits (out : Stdout) :
    ((∃ v, fetchVideoData.normalise out = Except.ok v) ↔ out.objectWithinLimits = true) ∧
    ((∃ msg, fetchVideoData.normalise out = Except.error (Failure.error msg)) ↔
      out.objectWithinLimits = false) ∧
    (out.validJSON = false →
      ∃ msg, fetchVideoData.normalise out = Except.error (Failure.error msg)) ∧
    (∀ p, fetchVideoData.normalise out ≠ Except.error (Failure.panic p)) := by
  have hiff := unmarshal_ok_iff out
  have hok : out.objectWithinLimits = true → ∃ v, fetchVideoData.normalise out = Except.ok v := by
    intro h
    obtain ⟨m, hm⟩ := hiff.mpr h
    exact ⟨_, normalise_of_unmarshal_ok out m hm⟩
  have herr : out.objectWithinLimits = false →
      ∃ msg, fetchVideoData.normalise out = Except.error (Failure.error msg) := by
    intro h
    cases hu : unmarshal out with
    | error e => exact ⟨_, normalise_of_unmarshal_error out e hu⟩
    | ok m =>
      have := hiff.mp ⟨m, hu⟩
      rw [h] at this
      cases this
  refine ⟨⟨?_, hok⟩, ⟨?_, herr⟩, ?_, normalise_never_panics out⟩
  · rintro ⟨v, hv⟩
    cases hlim : out.objectWithinLimits with
    | true => rfl
    | false =>
      obtain ⟨msg, hmsg⟩ := herr hlim
      rw [hmsg] at hv
      cases hv
  · rintro ⟨msg, hmsg⟩
    cases hlim : out.objectWithinLimits with
    | false => rfl
    | true =>
      obtain ⟨v, hv⟩ := hok hlim
      rw [hv] at hmsg
      cases hmsg
  · intro h
    apply herr
    cases out with
    | invalid e => rfl
    | document d => simp [Stdout.validJSON] at h

/-! ## The cache and the request handler -/

theorem cacheLookup_store_same (c : Cache) (key : String) (value : VideoMetadata) :
    cacheLookup (cacheStore c key value) key = some value := by
  induction c with
  | nil => simp [cacheStore, cacheLookup]
  | cons p rest ih =>
    obtain ⟨k, v⟩ := p
    by_cases hk : k = key
    · simp [cacheStore, cacheLookup, hk]
    · simp [cacheStore, cacheLookup, hk, ih]

theorem cacheLookup_store_other (c : Cache) (key other : String) (value : VideoMetadata)
    (h : other ≠ key) :
    cacheLookup (cacheStore c key value) other = cacheLookup c other := by
  induction c with
  | nil => simp [cacheStore, cacheLookup, h.symm]
  | cons p rest ih =>
    obtain ⟨k, v⟩ := p
    by_cases hk : k = key
    · subst hk
      simp [cacheStore, cacheLookup, h.symm]
    · by_cases ho : k = other
      · subst ho
        simp [cacheStore, cacheLookup, hk]
      · simp [cacheStore, cacheLookup, hk, ho, ih]

theorem fetchVideoData_invocations (run : String → CmdResult) (videoURL : String)
    (invocations : List String) :
    (fetchVideoData run videoURL invocations).2 = invocations ++ [videoURL] := by
  unfold fetchVideoData
  cases run videoURL <;> rfl

theorem fetchVideoData_never_panics (run : String → CmdResult) (videoURL : String)
    (invocations : List String) (p : String) :
    (fetchVideoData run videoURL invocations).1 ≠ Except.error (Failure.panic p) := by
  unfold fetchVideoData
  cases run videoURL with
  | failed err => simp
  | output out => exact normalise_never_panics out p

theorem downloadHandler_hit (run : String → CmdResult) (s : Server) (r : Request)
    (v : VideoMetadata) (hget : r.method = "GET") (hurl : r.url ≠ "")
    (hhit : cacheLookup s.cache r.url = some v) :
    downloadHandler run s r = (s, Response.json v) := by
  unfold downloadHandler
  simp [hget, hurl, hhit]

theorem downloadHandler_miss_ok (run : String → CmdResult) (s : Server) (r : Request)
    (v : VideoMetadata) (hget : r.method = "GET") (hurl : r.url ≠ "")
    (hmiss : cacheLookup s.cache r.url = none)
    (hok : (fetchVideoData run r.url s.invocations).1 = Except.ok v) :
    downloadHandler run s r =
      ({ cache := cacheStore s.cache r.url v, invocations := s.invocations ++ [r.url] },
        Response.json v) := by
  have hpair : fetchVideoData run r.url s.invocations =
      (Except.ok v, s.invocations ++ [r.url]) := by
    rw [← hok, ← fetchVideoData_invocations run r.url s.invocations]
  unfold downloadHandler
  simp [hget, hurl, hmiss, hpair]

theorem downloadHandler_miss_error (run : String → CmdResult) (s : Server) (r : Request)
    (hget : r.method = "GET") (hurl : r.url ≠ "")
    (hmiss : cacheLookup s.cache r.url = none)
    (hfail : ∀ v, (fetchVideoData run r.url s.invocations).1 ≠ Except.ok v) :
    ∃ err, downloadHandler run s r =
      ({ cache := s.cache, invocations := s.invocations ++ [r.url] },
        Response.error 500 ("Failed to fetch metadata: " ++ err ++ "\n")) := by
  have hinv := fetchVideoData_invocations run r.url s.invocations
  cases hres : (fetchVideoData run r.url s.invocations).1 with
  | ok v => exact absurd hres (hfail v)
  | error e =>
    cases e with
    | panic p => exact absurd hres (fetchVideoData_never_panics run r.url s.invocations p)
    | error err =>
      have hpair : fetchVideoData run r.url s.invocations =
          (Except.error (Failure.error err), s.invocations ++ [r.url]) := by
        rw [← hres, ← hinv]
      refine ⟨err, ?_⟩
      unfold downloadHandler
      simp [hget, hurl, hmiss, hpair]

theorem downloadHandler_keeps_entry (run : String → CmdResult) (s : Server) (r : Request)
    (U : String) (v : VideoMetadata) (h : cacheLookup s.cache U = some v) :
    cacheLookup (downloadHandler run s r).1.cache U = some v := by
  by_cases hget : r.method = "GET"
  · by_cases hurl : r.url = ""
    · unfold downloadHandler
      simp [hget, hurl, h]
    · cases hc : cacheLookup s.cache r.url with
      | some w => rw [downloadHandler_hit run s r w hget hurl hc]; exact h
      | none =>
        have hne : U ≠ r.url := by
          intro heq
          rw [heq, hc] at h
          cases h
        cases hres : (fetchVideoData run r.url s.invocations).1 with
        | ok w =>
          rw [downloadHandler_miss_ok run s r w hget hurl hc hres]
          show cacheLookup (cacheStore s.cache r.url w) U = some v
          rw [cacheLookup_store_other _ _ _ _ hne]
          exact h
        | error e =>
          obtain ⟨err, herr⟩ := downloadHandler_miss_error run s r hget hurl hc
            (by intro w hw; rw [hres] at hw; cases hw)
          rw [herr]
          exact h
  · unfold downloadHandler
    simp [hget, h]

theorem downloadHandler_keeps_empty_unbound (run : String → CmdResult) (s : Server)
    (r : Request) (h : cacheLookup s.cache "" = none) :
    cacheLookup (downloadHandler run s r).1.cache "" = none := by
  by_cases hget : r.method = "GET"
  · by_cases hurl : r.url = ""
    · unfold downloadHandler
      simp [hget, hurl, h]
    · cases hc : cacheLookup s.cache r.url with
      | some w => rw [downloadHandler_hit run s r w hget hurl hc]; exact h
      | none =>
        cases hres : (fetchVideoData run r.url s.invocations).1 with
        | ok w =>
          rw [downloadHandler_miss_ok run s r w hget hurl hc hres]
          show cacheLookup (cacheStore s.cache r.url w) "" = none
          rw [cacheLookup_store_other _ _ _ _ (Ne.symm hurl)]
          exact h
        | error e =>
          obtain ⟨err, herr⟩ := downloadHandler_miss_error run s r hget hurl hc
            (by intro w hw; rw [hres] at hw; cases hw)
          rw [herr]
          exact h
  · unfold downloadHandler
    simp [hget, h]

theorem serve_keeps_empty_unbound (reqs : List ((String → CmdResult) × Request))
    (s : Server) (h : cacheLookup s.cache "" = none) :
    cacheLookup (serve s reqs).cache "" = none := by
  induction reqs generalizing s with
  | nil => exact h
  | cons q rest ih =>
    obtain ⟨run, r⟩ := q
    exact ih _ (downloadHandler_keeps_empty_unbound run s r h)

/-- C6: in every cache state the server reaches, a GET request for a URL that has
an entry is answered with exactly the cached record, and the state is the same
afterwards: the cache is unchanged and the resolver has not been started. -/
theorem cached_url_served_from_cache (reqs : List ((String → CmdResult) × Request))
    (run : String → CmdResult) (U : String) (v : VideoMetadata)
    (hhit : cacheLookup (serve Server.init reqs).cache U = some v) :
    downloadHandler run (serve Server.init reqs) { method := "GET", url := U } =
      (serve Server.init reqs, Response.json v) := by
  have hempty : cacheLookup (serve Server.init reqs).cache "" = none :=
    serve_keeps_empty_unbound reqs Server.init rfl
  have hurl : U ≠ "" := by
    intro h
    rw [h, hempty] at hhit
    cases hhit
  exact downloadHandler_hit run _ { method := "GET", url := U } v rfl hurl hhit

/-- After one successful request for `http://x`, a request for it is a hit, even
when the resolver would now fail. -/
theorem cached_url_served_from_cache_witness :
    cacheLookup (serve Server.init
        [(resolverCat, { method := "GET", url := "http://x" })]).cache "http://x" =
      some catRecord ∧
    downloadHandler resolverFails
        (serve Server.init [(resolverCat, { method := "GET", url := "http://x" })])
        { method := "GET", url := "http://x" } =
      (serve Server.init [(resolverCat, { method := "GET", url := "http://x" })],
        Response.json catRecord) :=
  ⟨by decide,
   cached_url_served_from_cache [(resolverCat, { method := "GET", url := "http://x" })]
     resolverFails "http://x" catRecord (by decide)⟩

/-- C7: a GET request for a non-empty uncached URL on which `fetchVideoData` does
not succeed (the process fails, or its output is rejected) is answered with
status 500, the cache is the same afterwards, and the URL is still absent. -/
theorem failed_fetch_leaves_cache (run : String → CmdResult) (s : Server) (r : Request)
    (hget : r.method = "GET") (hurl : r.url ≠ "")
    (hmiss : cacheLookup s.cache r.url = none)
    (hfail : ∀ v, (fetchVideoData run r.url s.invocations).1 ≠ Except.ok v) :
    (downloadHandler run s r).2.status = some 500 ∧
    (downloadHandler run s r).1.cache = s.cache ∧
    cacheLookup (downloadHandler run s r).1.cache r.url = none := by
  obtain ⟨err, herr⟩ := downloadHandler_miss_error run s r hget hurl hmiss hfail
  rw [herr]
  exact ⟨rfl, rfl, hmiss⟩

/-- A resolver process that exits with a failure, on an empty cache. -/
theorem failed_fetch_leaves_cache_witness :
    (downloadHandler resolverFails Server.init { method := "GET", url := "http://x" }).2.status =
      some 500 ∧
    (downloadHandler resolverFails Server.init { method := "GET", url := "http://x" }).1.cache =
      Server.init.cache ∧
    cacheLookup
      (downloadHandler resolverFails Server.init { method := "GET", url := "http://x" }).1.cache
      "http://x" = none :=
  failed_fetch_leaves_cache resolverFails Server.init { method := "GET", url := "http://x" }
    (by decide) (by decide) (by decide) (by intro v h; cases h)

/-- C8: for a non-empty uncached URL on which `fetchVideoData` succeeds with `v`,
the first GET request starts the resolver exactly once, stores `v` under the URL
and answers `v`; a second GET request right after it answers the same `v` and
leaves the state as it is, so the resolver is not started again. -/
theorem first_request_fills_second_hits (run1 run2 : String → CmdResult) (s : Server)
    (U : String) (v : VideoMetadata) (hurl : U ≠ "")
    (hmiss : cacheLookup s.cache U = none)
    (hok : (fetchVideoData run1 U s.invocations).1 = Except.ok v) :
    downloadHandler run1 s { method := "GET", url := U } =
      ({ cache := cacheStore s.cache U v, invocations := s.invocations ++ [U] },
        Response.json v) ∧
    cacheLookup (downloadHandler run1 s { method := "GET", url := U }).1.cache U = some v ∧
    downloadHandler run2 (downloadHandler run1 s { method := "GET", url := U }).1
        { method := "GET", url := U } =
      ((downloadHandler run1 s { method := "GET", url := U }).1, Response.json v) := by
  have h1 := downloadHandler_miss_ok run1 s { method := "GET", url := U } v rfl hurl hmiss hok
  have h2 : cacheLookup (downloadHandler run1 s { method := "GET", url := U }).1.cache U =
      some v := by
    rw [h1]
    exact cacheLookup_store_same s.cache U v
  exact ⟨h1, h2, downloadHandler_hit run2 _ { method := "GET", url := U } v rfl hurl h2⟩

/-- The scenario's document on an empty cache; the second request is a hit even
with a resolver that would answer something else. -/
theorem first_request_fills_second_hits_witness :
    downloadHandler resolverCat Server.init { method := "GET", url := "http://x" } =
      ({ cache := [("http://x", catRecord)], invocations := ["http://x"] },
        Response.json catRecord) ∧
    downloadHandler resolverEmpty
        (downloadHandler resolverCat Server.init { method := "GET", url := "http://x" }).1
        { method := "GET", url := "http://x" } =
      ((downloadHandler resolverCat Server.init { method := "GET", url := "http://x" }).1,
        Response.json catRecord) :=
  have h := first_request_fills_second_hits resolverCat resolverEmpty Server.init "http://x"
    catRecord (by decide) (by decide) (by decide)
  ⟨h.1, h.2.2⟩

/-- C9: once a URL has an entry in the cache, it has the same entry after every
sequence of later requests, whatever their methods, URLs and resolver outcomes. -/
theorem cache_entries_persist (reqs : List ((String → CmdResult) × Request)) (s : Server)
    (U : String) (v : VideoMetadata) (h : cacheLookup s.cache U = some v) :
    cacheLookup (serve s reqs).cache U = some v := by
  induction reqs generalizing s with
  | nil => exact h
  | cons q rest ih =>
    obtain ⟨run, r⟩ := q
    exact ih _ (downloadHandler_keeps_entry run s r U v h)

/-- An entry survives a request for the same URL with another resolver output, a
request for another URL, a failing request, a POST and a request without URL. -/
theorem cache_entries_persist_witness :
    cacheLookup
      (serve { cache := [("http://x", catRecord)], invocations := ["http://x"] }
        [(resolverEmpty, { method := "GET", url := "http://x" }),
         (resolverEmpty, { method := "GET", url := "http://y" }),
         (resolverFails, { method := "GET", url := "http://z" }),
         (resolverGarbage, { method := "POST", url := "http://x" }),
         (resolverCat, { method := "GET", url := "" })]).cache "http://x" = some catRecord :=
  cache_entries_persist _ { cache := [("http://x", catRecord)], invocations := ["http://x"] }
    "http://x" catRecord (by decide)

end ImageMorph
